import Mathlib

/-!
Verification of the voice-interaction core of the `seline` repository.

The development shallowly embeds, in Lean 4:

* the viseme interpolation module (`interpolateVisemes`, `blendShapes`,
  `RHUBARB_TO_ARKIT`, `mapRhubarbToVisemes`) from the avatar viseme file;
* the VAD (voice-activity-detection) tick loop of `startVAD` from
  `use-voice-mode.ts`;
* the controller state of the `useVoiceMode` hook (`startRecording`,
  `speakText`, the recorder `onstop` handler, `cleanupResources` /
  `toggleVoiceMode`) as a step-function state machine;
* the text normalisation pipeline `stripMarkdownForTTS` / `truncateForTTS`
  as character-list transformations mirroring each JavaScript regex pass.

JavaScript numbers are modelled as rationals (`ℚ`), timestamps in
milliseconds as integers (`ℤ`), and strings as `List Char`.
-/

namespace Seline

/-! ## Viseme data model (src/unnamed viseme module) -/

/-- `VisemeCue` from the viseme module: `{time, shape, weight, duration}`,
times in seconds (modelled as `ℚ`). -/
structure VisemeCue where
  time : ℚ
  shape : String
  weight : ℚ
  duration : ℚ
deriving DecidableEq, Repr

/-- The `RHUBARB_TO_ARKIT` table: each Rhubarb shape label maps to a partial
blendshape frame (association list in the object's insertion order).
Unknown labels give the empty frame (the `?? {}` in the source). -/
def rhubarbToArkit : String → List (String × ℚ)
  | "X" => []
  | "A" => [("jawOpen", 0), ("mouthClose", 1)]
  | "B" => [("jawOpen", 1/5), ("mouthClose", 0)]
  | "C" => [("jawOpen", 1/2), ("mouthFunnel", 3/10), ("mouthOpen", 7/10)]
  | "D" => [("jawOpen", 4/5), ("mouthOpen", 1)]
  | "E" => [("jawOpen", 2/5), ("mouthPucker", 3/5)]
  | "F" => [("jawOpen", 1/5), ("mouthPucker", 9/10)]
  | "G" => [("jawOpen", 1/10), ("mouthFunnel", 1/2), ("mouthClose", 3/10)]
  | "H" => [("jawOpen", 3/10), ("mouthOpen", 2/5)]
  | _ => []

/-- `mapRhubarbToVisemes`: each `{start, end, value}` cue becomes
`{time := start, shape := value, weight := 1.0, duration := end - start}`. -/
def mapRhubarbToVisemes (mouthCues : List (ℚ × ℚ × String)) : List VisemeCue :=
  mouthCues.map fun c => ⟨c.1, c.2.2, 1, c.2.1 - c.1⟩

/-- `LERP_DURATION = 0.08` (80 ms smooth transition). -/
def lerpDuration : ℚ := 2/25

/-- Key set of `new Set([...Object.keys(a), ...Object.keys(b)])`:
deduplication keeping the first occurrence of each key. -/
def dedupKeys (seen : List String) : List String → List String
  | [] => []
  | k :: rest =>
    if k ∈ seen then dedupKeys seen rest else k :: dedupKeys (k :: seen) rest

/-- `frame[key] ?? 0`: value of a channel in a frame, defaulting to 0. -/
def channel : List (String × ℚ) → String → ℚ
  | [], _ => 0
  | (k2, v) :: rest, k => if k2 = k then v else channel rest k

/-- `blendShapes(a, b, t)`: for every key of `a` or `b`,
`result[key] = va + (vb - va) * t` with missing channels defaulting to 0. -/
def blendShapes (a b : List (String × ℚ)) (t : ℚ) : List (String × ℚ) :=
  (dedupKeys [] (a.map Prod.fst ++ b.map Prod.fst)).map fun k =>
    (k, channel a k + (channel b k - channel a k) * t)

/-- The cue-search loop of `interpolateVisemes`: the first cue `c` with
`c.time ≤ t < c.time + c.duration`, paired with the following cue
(`visemes[i + 1] ?? null`). -/
def findCue (t : ℚ) : List VisemeCue → Option (VisemeCue × Option VisemeCue)
  | [] => none
  | c :: rest =>
    if c.time ≤ t ∧ t < c.time + c.duration then some (c, rest.head?)
    else findCue t rest

/-- `interpolateVisemes(visemes, currentTime)`: empty frame when no cue is
current; otherwise the current cue's frame, linearly blended towards the next
cue's frame when within `LERP_DURATION` of the current cue's end. -/
def interpolateVisemes (visemes : List VisemeCue) (currentTime : ℚ) :
    List (String × ℚ) :=
  match findCue currentTime visemes with
  | none => []
  | some (c, none) => rhubarbToArkit c.shape
  | some (c, some next) =>
    let timeUntilNext := c.time + c.duration - currentTime
    if timeUntilNext ≤ lerpDuration then
      blendShapes (rhubarbToArkit c.shape) (rhubarbToArkit next.shape)
        (1 - timeUntilNext / lerpDuration)
    else rhubarbToArkit c.shape

/-- Well-formedness of a cue sequence as assumed by the spec: nonnegative
durations, sorted by time, and adjacent cues do not overlap
(`c.time + c.duration ≤ next.time`). -/
def sortedNonOverlapping : List VisemeCue → Bool
  | [] => true
  | [c] => decide (0 ≤ c.duration)
  | c :: c2 :: rest =>
    decide (0 ≤ c.duration) && decide (c.time + c.duration ≤ c2.time) &&
      sortedNonOverlapping (c2 :: rest)

/-- Projection of a cue to its weight-independent data (time, shape,
duration); used to state that `interpolateVisemes` ignores `weight`. -/
def eraseWeight (c : VisemeCue) : ℚ × String × ℚ :=
  (c.time, c.shape, c.duration)

/-! ## VAD tick loop (`startVAD` in use-voice-mode.ts)

Timestamps (`Date.now()` values) are modelled as integers in milliseconds;
the RMS of an audio frame as a rational. -/

/-- `SILENCE_THRESHOLD = 0.01`: RMS below this counts as silence. -/
def silenceThreshold : ℚ := 1/100

/-- `SILENCE_DURATION_MS = 1500`. -/
def silenceDurationMs : ℤ := 1500

/-- `MIN_RECORDING_MS = 500`. -/
def minRecordingMs : ℤ := 500

/-- `VAD_CHECK_INTERVAL_MS = 100`. -/
def vadCheckIntervalMs : ℤ := 100

/-- One body execution of the `setInterval` callback in `startVAD`: given the
recording start time, the current `silenceStartRef` value, the tick's
`Date.now()` and the computed RMS, returns the updated `silenceStartRef` and
whether `stopRecordingAndTranscribe` was invoked (turn complete). -/
def vadTick (recordingStart : ℤ) (silenceStart : Option ℤ) (now : ℤ)
    (rms : ℚ) : Option ℤ × Bool :=
  if rms < silenceThreshold then
    match silenceStart with
    | none => (some now, false)
    | some s =>
      if minRecordingMs < now - recordingStart ∧ silenceDurationMs ≤ now - s
      then (some s, true)
      else (some s, false)
  else (none, false)

/-- Run of the VAD timer over a list of `(Date.now(), rms)` tick samples,
starting from a given `silenceStartRef`. A fire calls
`stopRecordingAndTranscribe`, which cancels the interval (`stopVAD`), so the
run halts at the first fire: the result is the fire's timestamp, or `none`
when no turn-complete ever fires. Hence `some` means exactly one fire. -/
def vadRun (recordingStart : ℤ) (silenceStart : Option ℤ) :
    List (ℤ × ℚ) → Option ℤ
  | [] => none
  | (now, rms) :: rest =>
    let r := vadTick recordingStart silenceStart now rms
    if r.2 then some now else vadRun recordingStart r.1 rest

/-! ## Controller state machine (`useVoiceMode` in use-voice-mode.ts)

The hook's React state flags and resource refs are modelled as one record;
the callbacks `startRecording`, `speakText`, `recorder.onstop`,
`cleanupResources` and the off branch of `toggleVoiceMode` become step
functions on it.  External nondeterminism (microphone grant, fetch
outcomes, blob sizes) is a parameter of each step. -/

/-- Snapshot of the controller: the four state flags, the mirrored external
`isRunning` flag, the resource refs, the last value pushed through the
viseme callback, and counters of issued network requests (used to state
"no retry" / "never invokes transcription").

`refRecorder` is true when `mediaRecorderRef` holds a recorder that is
currently recording; `leakedRecorders` counts recorders that were
overwritten in the ref while still recording (they keep recording until
their stream's tracks are stopped). -/
structure VoiceState where
  isVoiceMode : Bool
  isListening : Bool
  isTranscribing : Bool
  isSpeaking : Bool
  isRunning : Bool
  hasMediaStream : Bool
  hasAudioContext : Bool
  hasAnalyser : Bool
  vadActive : Bool
  refRecorder : Bool
  leakedRecorders : Nat
  playbackHeld : Bool
  audioElExposed : Bool
  visemesPushed : List VisemeCue
  synthRequests : Nat
  transcribeRequests : Nat
deriving DecidableEq, Repr

/-- Number of `MediaRecorder` objects currently recording: the referenced
one plus any leaked ones. -/
def activeRecordingSessions (s : VoiceState) : Nat :=
  (if s.refRecorder then 1 else 0) + s.leakedRecorders

/-- `startRecording`: returns unchanged when `isTranscribing || isSpeaking ||
isRunningRef.current` (the guard does NOT consult `isListening`).  Otherwise,
with the microphone granted, it (re)acquires stream/context/analyser,
overwrites `mediaRecorderRef` with a fresh started recorder — leaking any
recorder that was still recording — starts the VAD and sets `isListening`.
On a mic/recorder error it only clears `isListening`. -/
def startRecordingStep (micOk : Bool) (s : VoiceState) : VoiceState :=
  if s.isTranscribing || s.isSpeaking || s.isRunning then s
  else if micOk then
    { s with
      hasMediaStream := true
      hasAudioContext := true
      hasAnalyser := true
      leakedRecorders := s.leakedRecorders + (if s.refRecorder then 1 else 0)
      refRecorder := true
      vadActive := true
      isListening := true }
  else { s with isListening := false }

/-- Outcome of the synthesis fetch inside `speakText`: non-OK HTTP response,
OK response without `audioUrl`, a thrown network/fetch error, or success
carrying the response's viseme cues. -/
inductive SynthOutcome where
  | httpError
  | noAudioUrl
  | fetchThrew
  | ok (visemes : List VisemeCue)
deriving DecidableEq, Repr

/-- `speakText` on a nonempty cleaned text (the empty-text early return is
not modelled): issues exactly one synthesis request, then
* non-OK HTTP / missing `audioUrl`: clears speaking and visemes and, when
  voice mode is enabled, calls `startRecording`;
* thrown fetch error (the `catch` block): clears visemes and speaking only;
* success: pushes visemes, replaces any previous playback element, exposes
  the audio element and sets speaking (its `onended` is a separate step). -/
def speakTextStep (o : SynthOutcome) (micOk : Bool) (s : VoiceState) :
    VoiceState :=
  match o with
  | .httpError | .noAudioUrl =>
    let s1 := { s with
      synthRequests := s.synthRequests + 1
      isSpeaking := false
      visemesPushed := ([] : List VisemeCue) }
    if s1.isVoiceMode then startRecordingStep micOk s1 else s1
  | .fetchThrew =>
    { s with
      synthRequests := s.synthRequests + 1
      visemesPushed := ([] : List VisemeCue)
      isSpeaking := false }
  | .ok v =>
    { s with
      synthRequests := s.synthRequests + 1
      visemesPushed := v
      playbackHeld := true
      audioElExposed := true
      isSpeaking := true }

/-- The `audio.onended` handler of `speakText` (natural playback end):
drops the playback element, clears the exposed element and the visemes,
clears speaking and, when voice mode is enabled, calls `startRecording`. -/
def audioEndedStep (micOk : Bool) (s : VoiceState) : VoiceState :=
  let s1 := { s with
    playbackHeld := false
    audioElExposed := false
    visemesPushed := ([] : List VisemeCue)
    isSpeaking := false }
  if s1.isVoiceMode then startRecordingStep micOk s1 else s1

/-- The `recorder.onstop` handler up to the transcription fetch: a blob
below 1000 bytes is discarded (re-arming listening when
`isVoiceModeRef.current && !isRunningRef.current`); otherwise
`setIsTranscribing(true)` and the transcription request is issued (its
response handling is a later event, not needed for the claims). -/
def recorderStopStep (blobSize : Nat) (micOk : Bool) (s : VoiceState) :
    VoiceState :=
  if blobSize < 1000 then
    if s.isVoiceMode && !s.isRunning then startRecordingStep micOk s else s
  else
    { s with
      isTranscribing := true
      transcribeRequests := s.transcribeRequests + 1 }

/-- `cleanupResources`: stops the VAD, stops and drops the referenced
recorder, pauses and drops the playback element, clears the avatar
callbacks, stops every microphone track (which also ends any leaked
recorder attached to the stream), closes the audio context, drops the
analyser and clears the three activity flags. -/
def cleanupResources (s : VoiceState) : VoiceState :=
  { s with
    vadActive := false
    refRecorder := false
    leakedRecorders := 0
    playbackHeld := false
    audioElExposed := false
    visemesPushed := ([] : List VisemeCue)
    hasMediaStream := false
    hasAudioContext := false
    hasAnalyser := false
    isListening := false
    isTranscribing := false
    isSpeaking := false }

/-- The voice-mode-off operation (the `isVoiceMode` branch of
`toggleVoiceMode`): `cleanupResources()` then `setIsVoiceMode(false)`. -/
def toggleOff (s : VoiceState) : VoiceState :=
  { cleanupResources s with isVoiceMode := false }

/-- `toggleVoiceMode`: off branch when voice mode is on, otherwise enables
the mode and attempts `startRecording`. -/
def toggleVoiceModeStep (micOk : Bool) (s : VoiceState) : VoiceState :=
  if s.isVoiceMode then toggleOff s
  else startRecordingStep micOk { s with isVoiceMode := true }

/-- The all-off initial state of the hook (`useState(false)` everywhere,
all refs null). -/
def initialVoiceState : VoiceState :=
  { isVoiceMode := false
    isListening := false
    isTranscribing := false
    isSpeaking := false
    isRunning := false
    hasMediaStream := false
    hasAudioContext := false
    hasAnalyser := false
    vadActive := false
    refRecorder := false
    leakedRecorders := 0
    playbackHeld := false
    audioElExposed := false
    visemesPushed := []
    synthRequests := 0
    transcribeRequests := 0 }

/-! ## Text normalisation (`stripMarkdownForTTS` / `truncateForTTS`)

JavaScript strings are modelled as `List Char`; each `replace` call of
`stripMarkdownForTTS` becomes one scanning pass, written with an explicit
fuel argument (any fuel above the input length is enough: every step
consumes at least one character; at fuel 0 the rest is returned
unchanged).  The passes reproduce the left-to-right, non-overlapping
global-match semantics of the respective regexes. -/

/-- Strings as character lists. -/
abbrev Str := List Char

/-- The backtick character. -/
def backtick : Char := Char.ofNat 96

/-- JavaScript `\s` (WhiteSpace and LineTerminator productions). -/
def isJsSpace (c : Char) : Bool :=
  decide (c = ' ' ∨ c = '\t' ∨ c = '\n' ∨ c = '\r' ∨
    c = Char.ofNat 11 ∨ c = Char.ofNat 12 ∨ c = Char.ofNat 160 ∨
    c = Char.ofNat 0x1680 ∨
    (0x2000 ≤ c.toNat ∧ c.toNat ≤ 0x200A) ∨
    c = Char.ofNat 0x2028 ∨ c = Char.ofNat 0x2029 ∨ c = Char.ofNat 0x202F ∨
    c = Char.ofNat 0x205F ∨ c = Char.ofNat 0x3000 ∨ c = Char.ofNat 0xFEFF)

/-- Whether a nonempty whitespace run ends with a newline (the consumed
text's last character decides whether the next scan position is at a line
start). -/
def lastIsNewline : Str → Bool
  | [] => false
  | [c] => c = '\n'
  | _ :: c :: rest => lastIsNewline (c :: rest)

/-- Search for the next occurrence of three consecutive backticks; returns
the remainder after it (the lazy `[\s\S]*?` of the code-block regex picks
the earliest closing fence). -/
def dropThroughTriple : Nat → Str → Option Str
  | 0, _ => none
  | _ + 1, [] => none
  | fuel + 1, c :: rest =>
    if c = backtick ∧ rest.head? = some backtick ∧
        (rest.drop 1).head? = some backtick then
      some (rest.drop 2)
    else dropThroughTriple fuel rest

/-- Pass for `replace(/```[\s\S]*?```/g, "")`. -/
def removeCodeBlocksAux : Nat → Str → Str
  | 0, s => s
  | _ + 1, [] => []
  | fuel + 1, c :: rest =>
    if c = backtick ∧ rest.head? = some backtick ∧
        (rest.drop 1).head? = some backtick then
      match dropThroughTriple rest.length (rest.drop 2) with
      | some remainder => removeCodeBlocksAux fuel remainder
      | none => c :: removeCodeBlocksAux fuel rest
    else c :: removeCodeBlocksAux fuel rest

/-- Pass for `` replace(/`([^`]+)`/g, "$1") `` (inline code keeps its
content). -/
def removeInlineCodeAux : Nat → Str → Str
  | 0, s => s
  | _ + 1, [] => []
  | fuel + 1, c :: rest =>
    if c = backtick then
      let content := rest.takeWhile (fun x => x ≠ backtick)
      let after := rest.drop content.length
      if content ≠ [] ∧ after.head? = some backtick then
        content ++ removeInlineCodeAux fuel (after.drop 1)
      else c :: removeInlineCodeAux fuel rest
    else c :: removeInlineCodeAux fuel rest

/-- Pass for `replace(/!\[([^\]]*)\]\([^)]*\)/g, "$1")` (images keep their
alt text). -/
def removeImagesAux : Nat → Str → Str
  | 0, s => s
  | _ + 1, [] => []
  | fuel + 1, c :: rest =>
    if c = '!' ∧ rest.head? = some '[' then
      let r1 := rest.drop 1
      let alt := r1.takeWhile (fun x => x ≠ ']')
      let r2 := r1.drop alt.length
      if r2.head? = some ']' ∧ (r2.drop 1).head? = some '(' then
        let r3 := r2.drop 2
        let url := r3.takeWhile (fun x => x ≠ ')')
        let r4 := r3.drop url.length
        if r4.head? = some ')' then alt ++ removeImagesAux fuel (r4.drop 1)
        else c :: removeImagesAux fuel rest
      else c :: removeImagesAux fuel rest
    else c :: removeImagesAux fuel rest

/-- Pass for `replace(/\[([^\]]+)\]\([^)]*\)/g, "$1")` (links keep their
text, which must be nonempty). -/
def removeLinksAux : Nat → Str → Str
  | 0, s => s
  | _ + 1, [] => []
  | fuel + 1, c :: rest =>
    if c = '[' then
      let txt := rest.takeWhile (fun x => x ≠ ']')
      let r2 := rest.drop txt.length
      if txt ≠ [] ∧ r2.head? = some ']' ∧ (r2.drop 1).head? = some '(' then
        let r3 := r2.drop 2
        let url := r3.takeWhile (fun x => x ≠ ')')
        let r4 := r3.drop url.length
        if r4.head? = some ')' then txt ++ removeLinksAux fuel (r4.drop 1)
        else c :: removeLinksAux fuel rest
      else c :: removeLinksAux fuel rest
    else c :: removeLinksAux fuel rest

/-- Pass for `replace(/^#{1,6}\s+/gm, "")`: at a line start, one to six
hashes followed by whitespace (the greedy `\s+` may span newlines) are
removed. -/
def removeHeadersAux : Nat → Bool → Str → Str
  | 0, _, s => s
  | _ + 1, _, [] => []
  | fuel + 1, atStart, c :: rest =>
    if atStart ∧ c = '#' then
      let hashes := (c :: rest).takeWhile (fun x => x = '#')
      let after := (c :: rest).drop hashes.length
      match after with
      | a :: _ =>
        if hashes.length ≤ 6 ∧ isJsSpace a then
          let ws := after.takeWhile isJsSpace
          removeHeadersAux fuel (lastIsNewline ws) (after.drop ws.length)
        else c :: removeHeadersAux fuel false rest
      | [] => c :: removeHeadersAux fuel false rest
    else c :: removeHeadersAux fuel (c = '\n') rest

/-- Pass for `replace(/\*{1,3}([^*]+)\*{1,3}/gm ...)` and its `_`
counterpart: with a run of `k` markers before nonempty content and a
closing run of `m` markers, the engine uses the last `min k 3` markers of
the opening run (emitting the rest) and consumes `min m 3` closing
markers. -/
def removeEmphAux (mark : Char) : Nat → Str → Str
  | 0, s => s
  | _ + 1, [] => []
  | fuel + 1, c :: rest =>
    if c = mark then
      let run := (c :: rest).takeWhile (fun x => x = mark)
      let afterRun := (c :: rest).drop run.length
      let content := afterRun.takeWhile (fun x => x ≠ mark)
      let afterContent := afterRun.drop content.length
      if content ≠ [] ∧ afterContent ≠ [] then
        let closeRun := afterContent.takeWhile (fun x => x = mark)
        List.replicate (run.length - 3) mark ++ content ++
          removeEmphAux mark fuel (afterContent.drop (min closeRun.length 3))
      else run ++ content ++ removeEmphAux mark fuel afterContent
    else c :: removeEmphAux mark fuel rest

/-- Pass for `replace(/~~([^~]+)~~/g, "$1")`. -/
def removeStrikeAux : Nat → Str → Str
  | 0, s => s
  | _ + 1, [] => []
  | fuel + 1, c :: rest =>
    if c = '~' ∧ rest.head? = some '~' then
      let r1 := rest.drop 1
      let content := r1.takeWhile (fun x => x ≠ '~')
      let after := r1.drop content.length
      if content ≠ [] ∧ after.head? = some '~' ∧
          (after.drop 1).head? = some '~' then
        content ++ removeStrikeAux fuel (after.drop 2)
      else c :: removeStrikeAux fuel rest
    else c :: removeStrikeAux fuel rest

/-- Pass for `replace(/^[\s]*[-*+]\s+/gm, "")` (bullet markers; the leading
`[\s]*` must reach the bullet, i.e. swallow the whole whitespace run). -/
def removeBulletsAux : Nat → Bool → Str → Str
  | 0, _, s => s
  | _ + 1, _, [] => []
  | fuel + 1, atStart, c :: rest =>
    if atStart then
      let ws := (c :: rest).takeWhile isJsSpace
      let r1 := (c :: rest).drop ws.length
      match r1 with
      | b :: r2 =>
        match r2 with
        | d :: _ =>
          if (b = '-' ∨ b = '*' ∨ b = '+') ∧ isJsSpace d then
            let ws2 := r2.takeWhile isJsSpace
            removeBulletsAux fuel (lastIsNewline ws2) (r2.drop ws2.length)
          else c :: removeBulletsAux fuel (c = '\n') rest
        | [] => c :: removeBulletsAux fuel (c = '\n') rest
      | [] => c :: removeBulletsAux fuel (c = '\n') rest
    else c :: removeBulletsAux fuel (c = '\n') rest

/-- Pass for `replace(/^[\s]*\d+\.\s+/gm, "")` (numbered-list markers). -/
def removeNumberedAux : Nat → Bool → Str → Str
  | 0, _, s => s
  | _ + 1, _, [] => []
  | fuel + 1, atStart, c :: rest =>
    if atStart then
      let ws := (c :: rest).takeWhile isJsSpace
      let r1 := (c :: rest).drop ws.length
      let digits := r1.takeWhile Char.isDigit
      let r2 := r1.drop digits.length
      match r2 with
      | dot :: r3 =>
        match r3 with
        | d :: _ =>
          if digits ≠ [] ∧ dot = '.' ∧ isJsSpace d then
            let ws2 := r3.takeWhile isJsSpace
            removeNumberedAux fuel (lastIsNewline ws2) (r3.drop ws2.length)
          else c :: removeNumberedAux fuel (c = '\n') rest
        | [] => c :: removeNumberedAux fuel (c = '\n') rest
      | [] => c :: removeNumberedAux fuel (c = '\n') rest
    else c :: removeNumberedAux fuel (c = '\n') rest

/-- Index of the last newline of a whitespace run, if any (the backtracking
point of `\s*$` in the horizontal-rule regex). -/
def lastNewlinePos : Str → Option Nat
  | [] => none
  | c :: rest =>
    match lastNewlinePos rest with
    | some j => some (j + 1)
    | none => if c = '\n' then some 0 else none

/-- Pass for `replace(/^[-*_]{3,}\s*$/gm, "")` (horizontal rules): a run of
at least three rule characters, then trailing whitespace up to an
end-of-line (`$` in multiline mode holds at the end of input or before a
newline; the greedy `\s*` backtracks to the last newline of the
whitespace run). -/
def removeHrAux : Nat → Bool → Str → Str
  | 0, _, s => s
  | _ + 1, _, [] => []
  | fuel + 1, atStart, c :: rest =>
    if atStart ∧ (c = '-' ∨ c = '*' ∨ c = '_') then
      let run := (c :: rest).takeWhile (fun x => x = '-' ∨ x = '*' ∨ x = '_')
      let r1 := (c :: rest).drop run.length
      let ws := r1.takeWhile isJsSpace
      let r2 := r1.drop ws.length
      if 3 ≤ run.length then
        match r2 with
        | [] => removeHrAux fuel false []
        | _ =>
          match lastNewlinePos ws with
          | some j => removeHrAux fuel false (ws.drop j ++ r2)
          | none => c :: removeHrAux fuel false rest
      else c :: removeHrAux fuel false rest
    else c :: removeHrAux fuel (c = '\n') rest

/-- Pass for `replace(/^>\s+/gm, "")` (blockquote markers). -/
def removeQuotesAux : Nat → Bool → Str → Str
  | 0, _, s => s
  | _ + 1, _, [] => []
  | fuel + 1, atStart, c :: rest =>
    if atStart ∧ c = '>' then
      match rest with
      | d :: _ =>
        if isJsSpace d then
          let ws := rest.takeWhile isJsSpace
          removeQuotesAux fuel (lastIsNewline ws) (rest.drop ws.length)
        else c :: removeQuotesAux fuel false rest
      | [] => c :: removeQuotesAux fuel false rest
    else c :: removeQuotesAux fuel (c = '\n') rest

/-- The emoji character class of the source's emoji-removal regex. -/
def isEmojiStripped (c : Char) : Bool :=
  let n := c.toNat
  decide ((0x1F600 ≤ n ∧ n ≤ 0x1F64F) ∨ (0x1F300 ≤ n ∧ n ≤ 0x1F5FF) ∨
    (0x1F680 ≤ n ∧ n ≤ 0x1F6FF) ∨ (0x1F1E0 ≤ n ∧ n ≤ 0x1F1FF) ∨
    (0x2600 ≤ n ∧ n ≤ 0x26FF) ∨ (0x2700 ≤ n ∧ n ≤ 0x27BF) ∨
    (0xFE00 ≤ n ∧ n ≤ 0xFE0F) ∨ (0x1F900 ≤ n ∧ n ≤ 0x1F9FF) ∨
    (0x1FA00 ≤ n ∧ n ≤ 0x1FA6F) ∨ (0x1FA70 ≤ n ∧ n ≤ 0x1FAFF) ∨
    n = 0x200D ∨ n = 0x20E3 ∨ (0xE0020 ≤ n ∧ n ≤ 0xE007F))

/-- Pass for the emoji-removal `replace(/[...]/gu, "")`: a plain filter,
since the class matches single code points. -/
def removeEmojis (s : Str) : Str := s.filter fun c => !(isEmojiStripped c)

/-- Pass for `replace(/\n{3,}/g, "\n\n")`. -/
def collapseNewlinesAux : Nat → Str → Str
  | 0, s => s
  | _ + 1, [] => []
  | fuel + 1, c :: rest =>
    if c = '\n' then
      let run := (c :: rest).takeWhile (fun x => x = '\n')
      let r1 := (c :: rest).drop run.length
      (if 3 ≤ run.length then ['\n', '\n'] else run) ++
        collapseNewlinesAux fuel r1
    else c :: collapseNewlinesAux fuel rest

/-- JavaScript `String.prototype.trim`. -/
def jsTrim (s : Str) : Str :=
  ((s.dropWhile isJsSpace).reverse.dropWhile isJsSpace).reverse

/-- `stripMarkdownForTTS`: the fourteen `replace` passes in source order,
then `trim()`. -/
def stripMarkdownForTTS (s0 : Str) : Str :=
  let s1 := removeCodeBlocksAux (s0.length + 1) s0
  let s2 := removeInlineCodeAux (s1.length + 1) s1
  let s3 := removeImagesAux (s2.length + 1) s2
  let s4 := removeLinksAux (s3.length + 1) s3
  let s5 := removeHeadersAux (s4.length + 1) true s4
  let s6 := removeEmphAux '*' (s5.length + 1) s5
  let s7 := removeEmphAux '_' (s6.length + 1) s6
  let s8 := removeStrikeAux (s7.length + 1) s7
  let s9 := removeBulletsAux (s8.length + 1) true s8
  let s10 := removeNumberedAux (s9.length + 1) true s9
  let s11 := removeHrAux (s10.length + 1) true s10
  let s12 := removeQuotesAux (s11.length + 1) true s11
  let s13 := removeEmojis s12
  let s14 := collapseNewlinesAux (s13.length + 1) s13
  jsTrim s14

/-- `TTS_MAX_CHARS = 3000`. -/
def ttsMaxChars : Nat := 3000

/-- Sentence-ending punctuation (`[.!?]`). -/
def isSentencePunct (c : Char) : Bool :=
  decide (c = '.' ∨ c = '!' ∨ c = '?')

/-- `text.match(/[^.!?]*[.!?]+[\s]*/g)`: the successive matches tile the
string from the left; a trailing fragment without sentence punctuation
belongs to no match.  Returns `[]` when the regex never matches (the `null`
of `match`). -/
def sentencesAux : Nat → Str → List Str
  | 0, _ => []
  | fuel + 1, s =>
    let pre := s.takeWhile (fun c => !(isSentencePunct c))
    let r1 := s.drop pre.length
    match r1 with
    | [] => []
    | _ =>
      let punct := r1.takeWhile isSentencePunct
      let r2 := r1.drop punct.length
      let ws := r2.takeWhile isJsSpace
      (pre ++ punct ++ ws) :: sentencesAux fuel (r2.drop ws.length)

/-- The sentence list used by `truncateForTTS`. -/
def jsSentences (s : Str) : List Str := sentencesAux (s.length + 1) s

/-- The sentence-accumulation loop of `truncateForTTS`: stop before a
sentence that would push the result past the budget — unless the result is
still empty, in which case the sentence is always taken. -/
def accumSentences : Str → List Str → Str
  | acc, [] => acc
  | acc, sent :: rest =>
    if acc.length + sent.length > ttsMaxChars ∧ acc.length > 0 then acc
    else accumSentences (acc ++ sent) rest

/-- `const sentences = text.match(...) || [text]`: the sentence list, or the
whole text as a single pseudo-sentence when the regex never matches. -/
def sentenceListOf (text : Str) : List Str :=
  match jsSentences text with
  | [] => [text]
  | l => l

/-- `truncateForTTS`: texts within the budget pass through; otherwise whole
sentences are accumulated (`[text]` when the sentence regex never matches),
the result is trimmed, and only if that is empty does the `slice`
fallback fire. -/
def truncateForTTS (text : Str) : Str :=
  if text.length ≤ ttsMaxChars then text
  else
    let result := accumSentences [] (sentenceListOf text)
    let trimmed := jsTrim result
    if trimmed = [] then text.take ttsMaxChars else trimmed

/-- The normalisation applied by `speakText` before synthesis:
`truncateForTTS(stripMarkdownForTTS(text))`. -/
def normalizeForTTS (s : Str) : Str := truncateForTTS (stripMarkdownForTTS s)

/-! ## Concrete fixtures used by witnesses and counterexamples -/

/-- The testable-properties cue pair of the spec:
`[{time:0,shape:"A",duration:0.5}, {time:0.5,shape:"D",duration:0.5}]`. -/
def specCues : List VisemeCue :=
  [⟨0, "A", 1, 1/2⟩, ⟨1/2, "D", 1, 1/2⟩]

/-- A single well-formed cue, for the out-of-range witness. -/
def oneCue : List VisemeCue := [⟨0, "A", 1, 1⟩]

/-- Cue lists agreeing except in `weight`, for the weight-independence
witness. -/
def weightCuesA : List VisemeCue := [⟨0, "A", 1, 1⟩, ⟨1, "D", 1, 1⟩]

/-- See `weightCuesA`. -/
def weightCuesB : List VisemeCue := [⟨0, "A", 0, 1⟩, ⟨1, "D", 1/3, 1⟩]

/-- A voice-mode-enabled idle controller state (mode just toggled on with
the mic granted, previous turn fully finished). -/
def voiceIdleState : VoiceState :=
  { initialVoiceState with
    isVoiceMode := true
    hasMediaStream := true
    hasAudioContext := true }

/-- All-silent VAD tick samples: one tick each at 100 ms, 600 ms and
1700 ms after a recording started at time 0, all with RMS 0. -/
def silentSamples : List (ℤ × ℚ) := [(100, 0), (600, 0), (1700, 0)]

/-! ## Lemmas about viseme interpolation -/

theorem findCue_eq_none (t : ℚ) (cues : List VisemeCue)
    (h : ∀ c ∈ cues, ¬(c.time ≤ t ∧ t < c.time + c.duration)) :
    findCue t cues = none := by
  induction cues with
  | nil => rfl
  | cons a l ih =>
    have ha := h a (List.mem_cons_self a l)
    simp only [findCue, if_neg ha]
    exact ih fun c hc => h c (List.mem_cons_of_mem a hc)

theorem interpolateVisemes_eq_nil_of_findCue_none (cues : List VisemeCue)
    (t : ℚ) (h : findCue t cues = none) : interpolateVisemes cues t = [] := by
  unfold interpolateVisemes
  rw [h]

theorem sortedNonOverlapping_cons_cons {a b : VisemeCue} {l : List VisemeCue}
    (h : sortedNonOverlapping (a :: b :: l) = true) :
    0 ≤ a.duration ∧ a.time + a.duration ≤ b.time ∧
      sortedNonOverlapping (b :: l) = true := by
  simpa [sortedNonOverlapping, and_assoc] using h

theorem sortedNonOverlapping_dur {cues : List VisemeCue}
    (h : sortedNonOverlapping cues = true) : ∀ c ∈ cues, 0 ≤ c.duration := by
  induction cues with
  | nil => intro c hc; cases hc
  | cons a l ih =>
    intro c hc
    cases l with
    | nil =>
      rcases List.mem_cons.mp hc with hc | hc
      · subst hc; simpa [sortedNonOverlapping] using h
      · cases hc
    | cons b l2 =>
      obtain ⟨h1, _, h3⟩ := sortedNonOverlapping_cons_cons h
      rcases List.mem_cons.mp hc with hc | hc
      · subst hc; exact h1
      · exact ih h3 c hc

theorem sortedNonOverlapping_head_le {a : VisemeCue} {l : List VisemeCue}
    (h : sortedNonOverlapping (a :: l) = true) :
    ∀ c ∈ a :: l, a.time ≤ c.time := by
  induction l generalizing a with
  | nil =>
    intro c hc
    rcases List.mem_cons.mp hc with hc | hc
    · subst hc; exact le_refl _
    · cases hc
  | cons b l2 ih =>
    intro c hc
    obtain ⟨h1, h2, h3⟩ := sortedNonOverlapping_cons_cons h
    rcases List.mem_cons.mp hc with hc | hc
    · subst hc; exact le_refl _
    · calc a.time ≤ a.time + a.duration := le_add_of_nonneg_right h1
        _ ≤ b.time := h2
        _ ≤ c.time := ih h3 c hc

theorem sortedNonOverlapping_end_le {a : VisemeCue} {l : List VisemeCue}
    (h : sortedNonOverlapping (a :: l) = true) :
    ∀ c ∈ a :: l,
      c.time + c.duration ≤
        ((a :: l).getLast (by simp)).time +
          ((a :: l).getLast (by simp)).duration := by
  induction l generalizing a with
  | nil =>
    intro c hc
    rcases List.mem_cons.mp hc with hc | hc
    · subst hc; simp
    · cases hc
  | cons b l2 ih =>
    intro c hc
    obtain ⟨h1, h2, h3⟩ := sortedNonOverlapping_cons_cons h
    have hlast : ((a :: b :: l2).getLast (by simp)) =
        ((b :: l2).getLast (by simp)) := by
      exact List.getLast_cons (by simp)
    rcases List.mem_cons.mp hc with hc | hc
    · subst hc
      have hb : 0 ≤ b.duration :=
        sortedNonOverlapping_dur h3 b (List.mem_cons_self b l2)
      have hb2 := ih h3 b (List.mem_cons_self b l2)
      rw [hlast]
      calc c.time + c.duration ≤ b.time := h2
        _ ≤ b.time + b.duration := le_add_of_nonneg_right hb
        _ ≤ _ := hb2
    · rw [hlast]
      exact ih h3 c hc

/-! ## Claim theorems: viseme interpolation -/

/-- C5: for the spec's cue pair, `interpolateVisemes` at `t = 0.46`
(inside the 80 ms lookahead window before shape A's end) returns, on every
channel of shape A's or shape D's frame, the linear blend of the two frames
with blend factor `1 - 0.04/0.08 = 0.5`; at `t = 0.1` it returns shape A's
frame unmodified. -/
theorem interpolate_blend_values :
    interpolateVisemes specCues (46/100) =
      [("jawOpen", 2/5), ("mouthClose", 1/2), ("mouthOpen", 1/2)] ∧
    interpolateVisemes specCues (1/10) = [("jawOpen", 0), ("mouthClose", 1)] := by
  constructor
  · norm_num +decide [interpolateVisemes, findCue, blendShapes, dedupKeys,
      rhubarbToArkit, lerpDuration, channel, specCues]
  · norm_num +decide [interpolateVisemes, findCue, blendShapes, dedupKeys,
      rhubarbToArkit, lerpDuration, channel, specCues]

/-- C6: for every cue sequence that is sorted, non-overlapping and has
nonnegative durations, `interpolateVisemes` returns the empty frame at any
time strictly before the first cue's start or at or after the last cue's
end. -/
theorem interpolate_outside_empty (cues : List VisemeCue)
    (hwf : sortedNonOverlapping cues = true) (hne : cues ≠ []) (t : ℚ)
    (h : t < (cues.head hne).time ∨
      (cues.getLast hne).time + (cues.getLast hne).duration ≤ t) :
    interpolateVisemes cues t = [] := by
  apply interpolateVisemes_eq_nil_of_findCue_none
  apply findCue_eq_none
  intro c hc
  cases cues with
  | nil => exact absurd rfl hne
  | cons a l =>
    rcases h with h | h
    · intro hcontra
      have := sortedNonOverlapping_head_le hwf c hc
      simp only [List.head_cons] at h
      exact absurd (le_trans this hcontra.1) (not_le.mpr h)
    · intro hcontra
      have := sortedNonOverlapping_end_le hwf c hc
      exact absurd (lt_of_lt_of_le hcontra.2 (le_trans this h))
        (lt_irrefl t)

/-- Witness for C6 at a concrete well-formed one-cue list and a time after
its end. -/
theorem interpolate_outside_empty_witness :
    sortedNonOverlapping oneCue = true ∧ oneCue ≠ [] ∧
      interpolateVisemes oneCue 2 = [] := by
  refine ⟨by norm_num [sortedNonOverlapping, oneCue], by simp [oneCue], ?_⟩
  exact interpolate_outside_empty oneCue
    (by norm_num [sortedNonOverlapping, oneCue]) (by simp [oneCue]) 2
    (Or.inr (by norm_num [oneCue]))

/-- C10: `interpolateVisemes` never reads the `weight` field: two cue
sequences that agree on time, shape and duration of every cue (arbitrary
weights) give identical frames at every time. -/
theorem interpolate_weight_independent (cs1 cs2 : List VisemeCue)
    (h : cs1.map eraseWeight = cs2.map eraseWeight) (t : ℚ) :
    interpolateVisemes cs1 t = interpolateVisemes cs2 t := by
  induction cs1 generalizing cs2 with
  | nil =>
    have : cs2 = [] := by
      cases cs2 with
      | nil => rfl
      | cons b l2 => simp [eraseWeight] at h
    rw [this]
  | cons a l1 ih =>
    cases cs2 with
    | nil => simp [eraseWeight] at h
    | cons b l2 =>
      simp only [List.map_cons, List.cons.injEq] at h
      obtain ⟨hab, htail⟩ := h
      obtain ⟨htime, hshape, hdur⟩ : a.time = b.time ∧ a.shape = b.shape ∧
          a.duration = b.duration := by
        simpa [eraseWeight, Prod.ext_iff] using hab
      by_cases hc : a.time ≤ t ∧ t < a.time + a.duration
      · have hc2 : b.time ≤ t ∧ t < b.time + b.duration := by
          rw [← htime, ← hdur]; exact hc
        unfold interpolateVisemes
        simp only [findCue, if_pos hc, if_pos hc2]
        cases l1 with
        | nil =>
          have : l2 = [] := by
            cases l2 with
            | nil => rfl
            | cons n2 m2 => simp [eraseWeight] at htail
          subst this
          simp [hshape]
        | cons n1 m1 =>
          cases l2 with
          | nil => simp [eraseWeight] at htail
          | cons n2 m2 =>
            simp only [List.map_cons, List.cons.injEq] at htail
            have hn : n1.shape = n2.shape := by
              have h2 : n1.time = n2.time ∧ n1.shape = n2.shape ∧
                  n1.duration = n2.duration := by
                simpa [eraseWeight, Prod.ext_iff] using htail.1
              exact h2.2.1
            simp only [List.head?_cons]
            rw [hshape, htime, hdur, hn]
      · have hc2 : ¬(b.time ≤ t ∧ t < b.time + b.duration) := by
          rw [← htime, ← hdur]; exact hc
        have e1 : interpolateVisemes (a :: l1) t = interpolateVisemes l1 t := by
          unfold interpolateVisemes
          simp only [findCue, if_neg hc]
        have e2 : interpolateVisemes (b :: l2) t = interpolateVisemes l2 t := by
          unfold interpolateVisemes
          simp only [findCue, if_neg hc2]
        rw [e1, e2]
        exact ih l2 htail

/-- Witness for C10: two concrete cue lists differing only in weights give
the same frame at `t = 1`. -/
theorem interpolate_weight_independent_witness :
    weightCuesA.map eraseWeight = weightCuesB.map eraseWeight ∧
      interpolateVisemes weightCuesA 1 = interpolateVisemes weightCuesB 1 := by
  constructor
  · norm_num [weightCuesA, weightCuesB, eraseWeight]
  · exact interpolate_weight_independent weightCuesA weightCuesB
      (by norm_num [weightCuesA, weightCuesB, eraseWeight]) 1

/-! ## Lemmas about the VAD run -/

/-- Soundness of a turn-complete: when a run fires at `tf`, more than
`MIN_RECORDING_MS` elapsed since the recording started, and the silence
persisted contiguously since either the inherited `silenceStartRef` or a
concrete earlier silent sample `s`, with `tf - s ≥ SILENCE_DURATION_MS`. -/
theorem vadRun_sound (start : ℤ) :
    ∀ (samples : List (ℤ × ℚ)) (st : Option ℤ) (tf : ℤ),
    vadRun start st samples = some tf →
    minRecordingMs < tf - start ∧
    ((∃ s, st = some s ∧ silenceDurationMs ≤ tf - s ∧
        ∃ p2 rf p3, samples = p2 ++ (tf, rf) :: p3 ∧ rf < silenceThreshold ∧
          ∀ q ∈ p2, q.2 < silenceThreshold) ∨
     (∃ s p1 rs p2 rf p3,
        samples = p1 ++ (s, rs) :: p2 ++ (tf, rf) :: p3 ∧
        silenceDurationMs ≤ tf - s ∧ rs < silenceThreshold ∧
        rf < silenceThreshold ∧ ∀ q ∈ p2, q.2 < silenceThreshold)) := by
  intro samples
  induction samples with
  | nil => intro st tf h; simp [vadRun] at h
  | cons p rest ih =>
    obtain ⟨now, rms⟩ := p
    intro st tf h
    by_cases hrms : rms < silenceThreshold
    · cases st with
      | none =>
        have hv : vadTick start none now rms = (some now, false) := by
          simp [vadTick, hrms]
        simp only [vadRun, hv] at h
        simp only [Bool.false_eq_true, if_false] at h
        obtain ⟨h500, hcase⟩ := ih (some now) tf h
        refine ⟨h500, Or.inr ?_⟩
        rcases hcase with ⟨s, hs, h15, p2, rf, p3, hrest, hrf, hp2⟩ |
          ⟨s, p1, rs, p2, rf, p3, hrest, h15, hrs, hrf, hp2⟩
        · obtain rfl : now = s := by injection hs
          exact ⟨now, [], rms, p2, rf, p3, by simp [hrest], h15, hrms, hrf, hp2⟩
        · exact ⟨s, (now, rms) :: p1, rs, p2, rf, p3, by simp [hrest], h15,
            hrs, hrf, hp2⟩
      | some s0 =>
        by_cases hfire : minRecordingMs < now - start ∧
            silenceDurationMs ≤ now - s0
        · have hv : vadTick start (some s0) now rms = (some s0, true) := by
            simp [vadTick, hrms, hfire]
          simp only [vadRun, hv, if_true] at h
          obtain rfl : now = tf := by injection h
          refine ⟨hfire.1, Or.inl ⟨s0, rfl, hfire.2, [], rms, rest, by simp,
            hrms, by simp⟩⟩
        · have hv : vadTick start (some s0) now rms = (some s0, false) := by
            simp [vadTick, hrms, hfire]
          simp only [vadRun, hv] at h
          simp only [Bool.false_eq_true, if_false] at h
          obtain ⟨h500, hcase⟩ := ih (some s0) tf h
          refine ⟨h500, ?_⟩
          rcases hcase with ⟨s, hs, h15, p2, rf, p3, hrest, hrf, hp2⟩ |
            ⟨s, p1, rs, p2, rf, p3, hrest, h15, hrs, hrf, hp2⟩
          · obtain rfl : s0 = s := by injection hs
            refine Or.inl ⟨s0, rfl, h15, (now, rms) :: p2, rf, p3,
              by simp [hrest], hrf, ?_⟩
            intro q hq
            rcases List.mem_cons.mp hq with hq | hq
            · subst hq; exact hrms
            · exact hp2 q hq
          · exact Or.inr ⟨s, (now, rms) :: p1, rs, p2, rf, p3,
              by simp [hrest], h15, hrs, hrf, hp2⟩
    · have hv : vadTick start st now rms = (none, false) := by
        simp [vadTick, hrms]
      simp only [vadRun, hv] at h
      simp only [Bool.false_eq_true, if_false] at h
      obtain ⟨h500, hcase⟩ := ih none tf h
      refine ⟨h500, Or.inr ?_⟩
      rcases hcase with ⟨s, hs, _⟩ | ⟨s, p1, rs, p2, rf, p3, hrest, h15, hrs,
        hrf, hp2⟩
      · cases hs
      · exact ⟨s, (now, rms) :: p1, rs, p2, rf, p3, by simp [hrest], h15,
          hrs, hrf, hp2⟩

/-- Completeness: once `silenceStartRef = some t0`, an all-silent sample list
containing a tick at least `SILENCE_DURATION_MS` after `t0` and more than
`MIN_RECORDING_MS` after the recording start makes the run fire. -/
theorem vadRun_complete (start : ℤ) :
    ∀ (rest : List (ℤ × ℚ)) (t0 : ℤ),
    (∀ q ∈ rest, q.2 < silenceThreshold) →
    (∃ q ∈ rest, silenceDurationMs ≤ q.1 - t0 ∧ minRecordingMs < q.1 - start) →
    ∃ tf, vadRun start (some t0) rest = some tf := by
  intro rest
  induction rest with
  | nil => intro t0 _ hw; simp at hw
  | cons p rest' ih =>
    obtain ⟨u, r⟩ := p
    intro t0 hsilent hw
    have hr : r < silenceThreshold :=
      hsilent (u, r) (List.mem_cons_self _ _)
    by_cases hfire : minRecordingMs < u - start ∧ silenceDurationMs ≤ u - t0
    · exact ⟨u, by simp [vadRun, vadTick, hr, hfire]⟩
    · have step : vadRun start (some t0) ((u, r) :: rest') =
          vadRun start (some t0) rest' := by
        have hv : vadTick start (some t0) u r = (some t0, false) := by
          simp [vadTick, hr, hfire]
        simp [vadRun, hv]
      rw [step]
      apply ih t0 (fun q hq => hsilent q (List.mem_cons_of_mem _ hq))
      obtain ⟨q, hq, hq1, hq2⟩ := hw
      rcases List.mem_cons.mp hq with hq | hq
      · subst hq
        exact absurd ⟨hq2, hq1⟩ hfire
      · exact ⟨q, hq, hq1, hq2⟩

/-! ## Claim theorem: VAD turn detection -/

/-- C4: (only-if) a turn-complete fired at `tf` implies the firing tick's
RMS was below the threshold, more than 500 ms (hence at least 500 ms) had
elapsed since the recording began, and the silence had persisted
contiguously — every sample from some silent sample at time `s` up to the
fire was below the threshold — for `tf - s ≥ 1500` ms.  (if) For a single
long silence — all samples silent, some tick at least 1500 ms after the
first one and beyond the 500 ms minimum — the run fires; since
`stopRecordingAndTranscribe` tears the interval down, `vadRun` halts there,
so exactly one turn-complete fires. -/
theorem vad_turn_complete (start : ℤ) (samples : List (ℤ × ℚ)) :
    (∀ tf, vadRun start none samples = some tf →
      minRecordingMs < tf - start ∧
      ∃ s p1 rs p2 rf p3,
        samples = p1 ++ (s, rs) :: p2 ++ (tf, rf) :: p3 ∧
        silenceDurationMs ≤ tf - s ∧ rs < silenceThreshold ∧
        rf < silenceThreshold ∧ ∀ q ∈ p2, q.2 < silenceThreshold) ∧
    (∀ t0 r0 rest, samples = (t0, r0) :: rest →
      (∀ q ∈ samples, q.2 < silenceThreshold) →
      (∃ q ∈ rest, silenceDurationMs ≤ q.1 - t0 ∧
        minRecordingMs < q.1 - start) →
      ∃ tf, vadRun start none samples = some tf) := by
  constructor
  · intro tf h
    obtain ⟨h500, hcase⟩ := vadRun_sound start samples none tf h
    rcases hcase with ⟨s, hs, _⟩ | hright
    · cases hs
    · exact ⟨h500, hright⟩
  · intro t0 r0 rest hsamp hsilent hw
    subst hsamp
    have hr0 : r0 < silenceThreshold :=
      hsilent (t0, r0) (List.mem_cons_self _ _)
    have hv : vadTick start none t0 r0 = (some t0, false) := by
      simp [vadTick, hr0]
    have step : vadRun start none ((t0, r0) :: rest) =
        vadRun start (some t0) rest := by simp [vadRun, hv]
    rw [step]
    exact vadRun_complete start rest t0
      (fun q hq => hsilent q (List.mem_cons_of_mem _ hq)) hw

/-- Witness for C4: on the all-silent concrete tick trace, the run fires. -/
theorem vad_turn_complete_witness :
    ∃ tf, vadRun 0 none silentSamples = some tf := by
  refine (vad_turn_complete 0 silentSamples).2 100 0 [(600, 0), (1700, 0)]
    rfl ?_ ?_
  · intro q hq
    fin_cases hq <;> norm_num [silenceThreshold]
  · refine ⟨(1700, 0), by simp, ?_, ?_⟩
    · norm_num [silenceDurationMs]
    · norm_num [minRecordingMs]

/-! ## Claim theorems: controller state machine -/

/-- Counterexample to C2 as stated: a thrown network/fetch error is NOT
treated like a natural playback end — from a voice-mode-enabled idle state
the `catch` block of `speakText` leaves `isListening` false (no re-arm),
while the natural-end handler re-arms listening from the same state. -/
theorem speakText_thrown_error_counterexample :
    voiceIdleState.isVoiceMode = true ∧
    (speakTextStep .fetchThrew true voiceIdleState).isSpeaking = false ∧
    (speakTextStep .fetchThrew true voiceIdleState).visemesPushed = [] ∧
    (speakTextStep .fetchThrew true voiceIdleState).isListening = false ∧
    (audioEndedStep true voiceIdleState).isListening = true := by
  decide

/-- C2 amended: a non-OK HTTP response and a missing audio URL end like a
natural playback end — speaking cleared, visemes cleared, exactly one
synthesis request (no retry), and listening re-armed exactly when voice
mode is still enabled; a thrown network/fetch error also clears speaking
and visemes with no retry, but does NOT re-arm listening — the controller
is left idle even when voice mode is still enabled.  (Context hypotheses:
no transcription in flight, chat layer not generating, not currently
listening, microphone grantable.) -/
theorem speakText_failure_amended (s : VoiceState) (o : SynthOutcome)
    (hT : s.isTranscribing = false) (hR : s.isRunning = false)
    (hL : s.isListening = false) :
    ((o = .httpError ∨ o = .noAudioUrl) →
      (speakTextStep o true s).isSpeaking = false ∧
      (speakTextStep o true s).visemesPushed = [] ∧
      (speakTextStep o true s).synthRequests = s.synthRequests + 1 ∧
      (speakTextStep o true s).isListening = s.isVoiceMode) ∧
    ((speakTextStep .fetchThrew true s).isSpeaking = false ∧
      (speakTextStep .fetchThrew true s).visemesPushed = [] ∧
      (speakTextStep .fetchThrew true s).synthRequests = s.synthRequests + 1 ∧
      (speakTextStep .fetchThrew true s).isListening = false) := by
  constructor
  · intro ho
    rcases ho with rfl | rfl <;>
      rcases hvm : s.isVoiceMode <;>
        simp [speakTextStep, startRecordingStep, hT, hR, hL, hvm]
  · simp [speakTextStep, hL]

/-- Witness for C2 (amended) at the concrete idle voice-mode state with an
HTTP failure. -/
theorem speakText_failure_amended_witness :
    (speakTextStep .httpError true voiceIdleState).isSpeaking = false ∧
    (speakTextStep .httpError true voiceIdleState).visemesPushed = [] ∧
    (speakTextStep .httpError true voiceIdleState).synthRequests =
      voiceIdleState.synthRequests + 1 ∧
    (speakTextStep .httpError true voiceIdleState).isListening =
      voiceIdleState.isVoiceMode :=
  (speakText_failure_amended voiceIdleState .httpError rfl rfl rfl).1
    (Or.inl rfl)

/-- C3 (code-bug evaluation): the guard of `startRecording` does not check
`isListening` (contradicting its own comment), so after toggling voice mode
on (one active recording session) an externally triggered `speakText` that
fails over HTTP re-arms via `startRecording` and creates a second recorder
while the first is still recording: two active recording sessions. -/
theorem startRecording_second_session :
    (toggleVoiceModeStep true initialVoiceState).isListening = true ∧
    activeRecordingSessions (toggleVoiceModeStep true initialVoiceState) = 1 ∧
    activeRecordingSessions
      (speakTextStep .httpError true
        (toggleVoiceModeStep true initialVoiceState)) = 2 := by
  decide

/-- C7: the voice-mode-off operation is idempotent — applying it twice from
any controller state gives the same terminal state as applying it once —
and that state has voice mode disabled, is Idle (not listening, not
transcribing, not speaking), and has every resource released: VAD timer
cancelled, recorder stopped and dropped (none leaked), playback element
dropped, exposed audio element cleared, microphone stream released, audio
context closed, analyser dropped. -/
theorem toggleOff_idempotent_released (s : VoiceState) :
    toggleOff (toggleOff s) = toggleOff s ∧
    (toggleOff s).isVoiceMode = false ∧
    (toggleOff s).isListening = false ∧
    (toggleOff s).isTranscribing = false ∧
    (toggleOff s).isSpeaking = false ∧
    (toggleOff s).vadActive = false ∧
    (toggleOff s).refRecorder = false ∧
    (toggleOff s).leakedRecorders = 0 ∧
    (toggleOff s).playbackHeld = false ∧
    (toggleOff s).audioElExposed = false ∧
    (toggleOff s).hasMediaStream = false ∧
    (toggleOff s).hasAudioContext = false ∧
    (toggleOff s).hasAnalyser = false := by
  refine ⟨rfl, rfl, rfl, rfl, rfl, rfl, rfl, rfl, rfl, rfl, rfl, rfl, rfl⟩

/-- Witness for C7 at the concrete voice-mode-enabled state. -/
theorem toggleOff_idempotent_released_witness :
    toggleOff (toggleOff voiceIdleState) = toggleOff voiceIdleState :=
  (toggleOff_idempotent_released voiceIdleState).1

/-- C8: a finished recording whose blob is under 1000 bytes never reaches
the transcription service (no request issued, `isTranscribing` stays
false), and listening is re-armed exactly when voice mode is still enabled
and the chat layer is not generating.  (Context hypotheses: the handler
runs after the recorder stopped, so the controller is not listening,
not transcribing, not speaking; microphone grantable.) -/
theorem small_blob_discarded (s : VoiceState) (blobSize : Nat)
    (hb : blobSize < 1000) (hT : s.isTranscribing = false)
    (hS : s.isSpeaking = false) (hL : s.isListening = false) :
    (recorderStopStep blobSize true s).transcribeRequests =
      s.transcribeRequests ∧
    (recorderStopStep blobSize true s).isTranscribing = false ∧
    (recorderStopStep blobSize true s).isListening =
      (s.isVoiceMode && !s.isRunning) := by
  simp only [recorderStopStep, if_pos hb]
  rcases hvm : s.isVoiceMode <;> rcases hr : s.isRunning <;>
    simp [startRecordingStep, hT, hS, hL, hvm, hr]

/-- Witness for C8: a 500-byte blob at the concrete idle voice-mode state
is discarded and listening re-arms. -/
theorem small_blob_discarded_witness :
    (recorderStopStep 500 true voiceIdleState).transcribeRequests =
      voiceIdleState.transcribeRequests ∧
    (recorderStopStep 500 true voiceIdleState).isTranscribing = false ∧
    (recorderStopStep 500 true voiceIdleState).isListening =
      (voiceIdleState.isVoiceMode && !voiceIdleState.isRunning) :=
  small_blob_discarded voiceIdleState 500 (by decide) rfl rfl rfl

/-! ## Lemmas about the text pipeline -/

theorem takeWhile_replicate_neg (p : Char → Bool) (h : p 'a' = false) :
    ∀ n, (List.replicate n 'a').takeWhile p = [] := by
  intro n
  cases n with
  | zero => rfl
  | succ n => simp [List.replicate_succ, List.takeWhile_cons, h]

theorem takeWhile_replicate_pos (p : Char → Bool) (h : p 'a' = true) :
    ∀ n, (List.replicate n 'a').takeWhile p = List.replicate n 'a' := by
  intro n
  induction n with
  | zero => rfl
  | succ n ih => simp [List.replicate_succ, List.takeWhile_cons, h, ih]

theorem dropWhile_replicate_neg (p : Char → Bool) (h : p 'a' = false) :
    ∀ n, (List.replicate n 'a').dropWhile p = List.replicate n 'a' := by
  intro n
  cases n with
  | zero => rfl
  | succ n => simp [List.replicate_succ, List.dropWhile_cons, h]

theorem filter_replicate_pos (p : Char → Bool) (h : p 'a' = true) :
    ∀ n, (List.replicate n 'a').filter p = List.replicate n 'a' := by
  intro n
  induction n with
  | zero => rfl
  | succ n ih => simp [List.replicate_succ, List.filter_cons, h, ih]

theorem removeCodeBlocksAux_replicate :
    ∀ f n, removeCodeBlocksAux f (List.replicate n 'a') =
      List.replicate n 'a' := by
  intro f
  induction f with
  | zero => intro n; rfl
  | succ f ih =>
    intro n
    cases n with
    | zero => rfl
    | succ n =>
      simp only [List.replicate_succ, removeCodeBlocksAux]
      rw [if_neg fun h => absurd h.1 (by decide), ih n]

theorem removeInlineCodeAux_replicate :
    ∀ f n, removeInlineCodeAux f (List.replicate n 'a') =
      List.replicate n 'a' := by
  intro f
  induction f with
  | zero => intro n; rfl
  | succ f ih =>
    intro n
    cases n with
    | zero => rfl
    | succ n =>
      simp only [List.replicate_succ, removeInlineCodeAux]
      rw [if_neg (by decide), ih n]

theorem removeImagesAux_replicate :
    ∀ f n, removeImagesAux f (List.replicate n 'a') =
      List.replicate n 'a' := by
  intro f
  induction f with
  | zero => intro n; rfl
  | succ f ih =>
    intro n
    cases n with
    | zero => rfl
    | succ n =>
      simp only [List.replicate_succ, removeImagesAux]
      rw [if_neg fun h => absurd h.1 (by decide), ih n]

theorem removeLinksAux_replicate :
    ∀ f n, removeLinksAux f (List.replicate n 'a') =
      List.replicate n 'a' := by
  intro f
  induction f with
  | zero => intro n; rfl
  | succ f ih =>
    intro n
    cases n with
    | zero => rfl
    | succ n =>
      simp only [List.replicate_succ, removeLinksAux]
      rw [if_neg (by decide), ih n]

theorem removeHeadersAux_replicate :
    ∀ f b n, removeHeadersAux f b (List.replicate n 'a') =
      List.replicate n 'a' := by
  intro f
  induction f with
  | zero => intro b n; rfl
  | succ f ih =>
    intro b n
    cases n with
    | zero => rfl
    | succ n =>
      simp only [List.replicate_succ, removeHeadersAux]
      rw [if_neg fun h => absurd h.2 (by decide), ih]

theorem removeEmphAux_star_replicate :
    ∀ f n, removeEmphAux '*' f (List.replicate n 'a') =
      List.replicate n 'a' := by
  intro f
  induction f with
  | zero => intro n; rfl
  | succ f ih =>
    intro n
    cases n with
    | zero => rfl
    | succ n =>
      simp only [List.replicate_succ, removeEmphAux]
      rw [if_neg (by decide), ih n]

theorem removeEmphAux_underscore_replicate :
    ∀ f n, removeEmphAux '_' f (List.replicate n 'a') =
      List.replicate n 'a' := by
  intro f
  induction f with
  | zero => intro n; rfl
  | succ f ih =>
    intro n
    cases n with
    | zero => rfl
    | succ n =>
      simp only [List.replicate_succ, removeEmphAux]
      rw [if_neg (by decide), ih n]

theorem removeStrikeAux_replicate :
    ∀ f n, removeStrikeAux f (List.replicate n 'a') =
      List.replicate n 'a' := by
  intro f
  induction f with
  | zero => intro n; rfl
  | succ f ih =>
    intro n
    cases n with
    | zero => rfl
    | succ n =>
      simp only [List.replicate_succ, removeStrikeAux]
      rw [if_neg fun h => absurd h.1 (by decide), ih n]

theorem removeBulletsAux_replicate :
    ∀ f b n, removeBulletsAux f b (List.replicate n 'a') =
      List.replicate n 'a' := by
  intro f
  induction f with
  | zero => intro b n; rfl
  | succ f ih =>
    intro b n
    cases n with
    | zero => rfl
    | succ n =>
      cases b with
      | false =>
        simp only [List.replicate_succ, removeBulletsAux]
        rw [if_neg (by simp), ih]
      | true =>
        cases n with
        | zero =>
          have ih0 : ∀ b, removeBulletsAux f b [] = [] := fun b => ih b 0
          simp +decide [removeBulletsAux, List.replicate_succ,
            List.replicate_zero, List.takeWhile_cons, ih0]
        | succ m =>
          have ih1 : ∀ b, removeBulletsAux f b ('a' :: List.replicate m 'a') =
              'a' :: List.replicate m 'a' := fun b => by
            simpa [List.replicate_succ] using ih b (m + 1)
          simp +decide [removeBulletsAux, List.replicate_succ,
            List.takeWhile_cons, ih1]

theorem removeNumberedAux_replicate :
    ∀ f b n, removeNumberedAux f b (List.replicate n 'a') =
      List.replicate n 'a' := by
  intro f
  induction f with
  | zero => intro b n; rfl
  | succ f ih =>
    intro b n
    cases n with
    | zero => rfl
    | succ n =>
      cases b with
      | false =>
        simp only [List.replicate_succ, removeNumberedAux]
        rw [if_neg (by simp), ih]
      | true =>
        cases n with
        | zero =>
          have ih0 : ∀ b, removeNumberedAux f b [] = [] := fun b => ih b 0
          simp +decide [removeNumberedAux, List.replicate_succ,
            List.replicate_zero, List.takeWhile_cons, ih0]
        | succ m =>
          have ih1 : ∀ b,
              removeNumberedAux f b ('a' :: List.replicate m 'a') =
                'a' :: List.replicate m 'a' := fun b => by
            simpa [List.replicate_succ] using ih b (m + 1)
          simp +decide [removeNumberedAux, List.replicate_succ,
            List.takeWhile_cons, ih1]

theorem removeHrAux_replicate :
    ∀ f b n, removeHrAux f b (List.replicate n 'a') =
      List.replicate n 'a' := by
  intro f
  induction f with
  | zero => intro b n; rfl
  | succ f ih =>
    intro b n
    cases n with
    | zero => rfl
    | succ n =>
      simp only [List.replicate_succ, removeHrAux]
      rw [if_neg fun h => absurd h.2 (by decide), ih]

theorem removeQuotesAux_replicate :
    ∀ f b n, removeQuotesAux f b (List.replicate n 'a') =
      List.replicate n 'a' := by
  intro f
  induction f with
  | zero => intro b n; rfl
  | succ f ih =>
    intro b n
    cases n with
    | zero => rfl
    | succ n =>
      simp only [List.replicate_succ, removeQuotesAux]
      rw [if_neg fun h => absurd h.2 (by decide), ih]

theorem collapseNewlinesAux_replicate :
    ∀ f n, collapseNewlinesAux f (List.replicate n 'a') =
      List.replicate n 'a' := by
  intro f
  induction f with
  | zero => intro n; rfl
  | succ f ih =>
    intro n
    cases n with
    | zero => rfl
    | succ n =>
      simp only [List.replicate_succ, collapseNewlinesAux]
      rw [if_neg (by decide), ih n]

theorem jsTrim_replicate (n : Nat) :
    jsTrim (List.replicate n 'a') = List.replicate n 'a' := by
  simp [jsTrim, dropWhile_replicate_neg isJsSpace (by decide),
    List.reverse_replicate]

theorem stripMarkdownForTTS_replicate (n : Nat) :
    stripMarkdownForTTS (List.replicate n 'a') = List.replicate n 'a' := by
  simp only [stripMarkdownForTTS, removeCodeBlocksAux_replicate,
    removeInlineCodeAux_replicate, removeImagesAux_replicate,
    removeLinksAux_replicate, removeHeadersAux_replicate,
    removeEmphAux_star_replicate, removeEmphAux_underscore_replicate,
    removeStrikeAux_replicate, removeBulletsAux_replicate,
    removeNumberedAux_replicate, removeHrAux_replicate,
    removeQuotesAux_replicate, removeEmojis,
    filter_replicate_pos (fun c => !(isEmojiStripped c)) (by decide),
    collapseNewlinesAux_replicate, jsTrim_replicate]

theorem jsSentences_replicate (n : Nat) :
    jsSentences (List.replicate n 'a') = [] := by
  have hlen : (List.replicate n 'a').length = n := List.length_replicate n 'a'
  have hdrop : List.drop n (List.replicate n 'a') = [] := by
    nth_rewrite 1 [← hlen]
    exact List.drop_length (List.replicate n 'a')
  simp only [jsSentences, sentencesAux,
    takeWhile_replicate_pos (fun c => !(isSentencePunct c)) (by decide), hlen,
    hdrop]

theorem drop_takeWhile_length (q : Char → Bool) :
    ∀ s : Str, s.drop (s.takeWhile q).length = s.dropWhile q := by
  intro s
  induction s with
  | nil => rfl
  | cons c t ih =>
    by_cases hq : q c
    · simp [List.takeWhile_cons, List.dropWhile_cons, hq, ih]
    · simp [List.takeWhile_cons, List.dropWhile_cons, hq]

theorem dropWhile_head_false (q : Char → Bool) :
    ∀ (s : Str) (c : Char) (tail : Str),
    s.dropWhile q = c :: tail → q c = false := by
  intro s
  induction s with
  | nil => intro c tail h; cases h
  | cons x t ih =>
    intro c tail h
    by_cases hx : q x
    · rw [List.dropWhile_cons, if_pos hx] at h
      exact ih c tail h
    · rw [List.dropWhile_cons, if_neg hx] at h
      obtain rfl : x = c := (List.cons.injEq ..).mp h |>.1
      exact Bool.eq_false_iff.mpr hx

/-- Every match of the sentence regex contains at least one punctuation
character, so is nonempty. -/
theorem sentencesAux_ne_nil :
    ∀ (f : Nat) (s x : Str), x ∈ sentencesAux f s → x ≠ [] := by
  intro f
  induction f with
  | zero => intro s x hx; cases hx
  | succ f ih =>
    intro s x hx
    simp only [sentencesAux] at hx
    rcases hr : s.drop (s.takeWhile (fun c => !(isSentencePunct c))).length
      with _ | ⟨c, tail⟩
    · rw [hr] at hx; cases hx
    · rw [hr] at hx
      rcases List.mem_cons.mp hx with hx | hx
      · have hc : isSentencePunct c = true := by
          have := dropWhile_head_false (fun c => !(isSentencePunct c)) s c
            tail (by rw [← drop_takeWhile_length]; exact hr)
          simpa using this
        subst hx
        simp [List.takeWhile_cons, hc]
      · exact ih _ x hx

/-- The accumulation loop never grows a nonempty in-budget accumulator past
the budget: once `acc` is nonempty, a sentence is only appended when the
sum stays within `TTS_MAX_CHARS`. -/
theorem accumSentences_length_le :
    ∀ (sents : List Str) (acc : Str), acc ≠ [] →
    acc.length ≤ ttsMaxChars →
    (accumSentences acc sents).length ≤ ttsMaxChars := by
  intro sents
  induction sents with
  | nil => intro acc _ h2; exact h2
  | cons sent rest ih =>
    intro acc hne hle
    simp only [accumSentences]
    split
    · exact hle
    · rename_i hcond
      have hpos : acc.length > 0 := List.length_pos.mpr hne
      have hsum : acc.length + sent.length ≤ ttsMaxChars := by
        by_contra hgt
        push_neg at hgt
        exact hcond ⟨hgt, hpos⟩
      exact ih (acc ++ sent) (by simp [hne]) (by simpa using hsum)

theorem jsTrim_length_le (s : Str) : (jsTrim s).length ≤ s.length := by
  unfold jsTrim
  calc ((s.dropWhile isJsSpace).reverse.dropWhile isJsSpace).reverse.length
      = ((s.dropWhile isJsSpace).reverse.dropWhile isJsSpace).length := by
        simp
    _ ≤ (s.dropWhile isJsSpace).reverse.length :=
        List.Sublist.length_le (List.dropWhile_sublist _)
    _ = (s.dropWhile isJsSpace).length := by simp
    _ ≤ s.length := List.Sublist.length_le (List.dropWhile_sublist _)

theorem accumSentences_base (acc : Str) : accumSentences acc [] = acc := rfl

/-- The first sentence is always absorbed: the break guard requires a
nonempty accumulator. -/
theorem accumSentences_nil_cons (s : Str) (rest : List Str) :
    accumSentences [] (s :: rest) = accumSentences s rest := by
  simp only [accumSentences]
  rw [if_neg (fun h => absurd h.2 (lt_irrefl 0)), List.nil_append]

theorem sentenceListOf_of_eq_nil {t : Str} (h : jsSentences t = []) :
    sentenceListOf t = [t] := by
  unfold sentenceListOf
  rw [h]

theorem sentenceListOf_of_eq_cons {t : Str} {s1 : Str} {ss : List Str}
    (h : jsSentences t = s1 :: ss) : sentenceListOf t = s1 :: ss := by
  unfold sentenceListOf
  rw [h]

/-! ## Claim theorems: text normalisation -/

/-- C9: `stripMarkdownForTTS` on the spec's example removes the bold
markers keeping the text, keeps only the link text, and keeps only the
inline-code content; the full normalisation gives the same result (the text
is far below the truncation budget). -/
theorem strip_markdown_example :
    stripMarkdownForTTS ("**Hello** [world](http://x.com) `code`".toList) =
      "Hello world code".toList ∧
    normalizeForTTS ("**Hello** [world](http://x.com) `code`".toList) =
      "Hello world code".toList := by
  constructor
  · decide
  · decide

/-- Counterexample to C1 as stated: a 3001-character input with no sentence
boundary is NOT hard-cut at 3000 characters — the whole text survives
normalisation, because the accumulation loop always takes the first
"sentence" (here the whole text via the `|| [text]` fallback), leaving the
`slice(0, 3000)` fallback unreachable. -/
theorem normalize_no_boundary_counterexample :
    3000 < (normalizeForTTS (List.replicate 3001 'a')).length := by
  have hlen : (List.replicate 3001 'a').length = 3001 :=
    List.length_replicate 3001 'a'
  have hsel : sentenceListOf (List.replicate 3001 'a') =
      [List.replicate 3001 'a'] :=
    sentenceListOf_of_eq_nil (jsSentences_replicate 3001)
  have haccum : accumSentences [] [List.replicate 3001 'a'] =
      List.replicate 3001 'a' := by
    rw [accumSentences_nil_cons, accumSentences_base]
  unfold normalizeForTTS
  rw [stripMarkdownForTTS_replicate]
  simp only [truncateForTTS]
  rw [if_neg (by rw [hlen]; decide), hsel, haccum, jsTrim_replicate,
    if_neg (by decide), hlen]
  decide

/-- C1 amended: the normalised text is at most 3000 characters whenever the
cleaned text has a sentence boundary and its first sentence fits the
budget: the accumulation takes the first sentence unconditionally and then
only appends sentences that keep the result within the budget, and the
final trim only shortens.  (When no sentence boundary exists the whole
cleaned text is returned unmodified — see the counterexample — and a first
sentence longer than the budget is also taken whole.) -/
theorem normalize_truncation_amended (text : Str)
    (h1 : jsSentences (stripMarkdownForTTS text) ≠ [])
    (h2 : ∀ s1, (jsSentences (stripMarkdownForTTS text)).head? = some s1 →
      s1.length ≤ ttsMaxChars) :
    (normalizeForTTS text).length ≤ ttsMaxChars := by
  unfold normalizeForTTS
  simp only [truncateForTTS]
  by_cases hlen : (stripMarkdownForTTS text).length ≤ ttsMaxChars
  · rw [if_pos hlen]
    exact hlen
  · rw [if_neg hlen]
    rcases hs : jsSentences (stripMarkdownForTTS text) with _ | ⟨s1, ss⟩
    · exact absurd hs h1
    · have hs1mem : s1 ∈ jsSentences (stripMarkdownForTTS text) := by
        rw [hs]
        exact List.mem_cons_self _ _
      have hs1ne : s1 ≠ [] := sentencesAux_ne_nil _ _ s1 hs1mem
      have hs1len : s1.length ≤ ttsMaxChars := h2 s1 (by rw [hs]; rfl)
      have hstep : accumSentences [] (s1 :: ss) = accumSentences s1 ss :=
        accumSentences_nil_cons s1 ss
      have hacc : (accumSentences s1 ss).length ≤ ttsMaxChars :=
        accumSentences_length_le ss s1 hs1ne hs1len
      rw [sentenceListOf_of_eq_cons hs, hstep]
      split
      · simp [List.length_take, ttsMaxChars]
      · exact le_trans (jsTrim_length_le _) hacc

/-- Witness for C1 (amended) on a concrete input with sentence boundaries. -/
theorem normalize_truncation_amended_witness :
    jsSentences (stripMarkdownForTTS ("Hi. Bye.".toList)) ≠ [] ∧
    (normalizeForTTS ("Hi. Bye.".toList)).length ≤ ttsMaxChars := by
  refine ⟨by decide, ?_⟩
  apply normalize_truncation_amended
  · decide
  · intro s1 hs1
    have hhead : (jsSentences
        (stripMarkdownForTTS ("Hi. Bye.".toList))).head? =
        some ("Hi. ".toList) := by decide
    rw [hhead] at hs1
    obtain rfl := Option.some.inj hs1
    decide

end Seline
